import Mathlib

/-!
# Verification of coreth block assembly and peer request network

Shallow embedding of the block-assembly core (`miner` package, worker.go)
and the peer request/response subsystem (`peer/network.go`) of the
shubhamdubey02/coreth repository, with proofs of the specified properties.

Machine integers are modelled as `Nat` with explicit `% 2^32` where the Go
code uses a wrapping `uint32`. External collaborators (the EVM's
`ApplyTransaction`, `CheckPredicates`, the consensus engine, the codec,
the app sender) are modelled as oracle parameters: the functions here are
faithful to the coreth source's control flow given any oracle outcome.
-/

namespace Coreth

/-! ## Peer request network (peer/network.go)

State of a `network` struct restricted to the fields the verified
properties concern: `requestIDGen` (wrapping uint32 counter),
`outstandingRequestHandlers` (assoc list requestID ↦ handler id),
the count of currently-acquired permits of the `activeAppRequests`
weighted semaphore, the `closed` flag, and instrumentation counters
recording handler callback deliveries and external sends. -/

/-- Handlers are identified by a numeric id; the instrumentation maps count
`OnResponse` / `OnFailure` deliveries per handler id. -/
abbrev HandlerId := Nat

structure NetState where
  requestIDGen : Nat
  outstanding : List (Nat × HandlerId)
  permits : Nat
  closed : Bool
  onFailureCount : HandlerId → Nat
  onResponseCount : HandlerId → Nat
  sends : Nat
deriving Inhabited

/-- `uint32` modulus. -/
def u32 : Nat := 2 ^ 32

/-- network.nextRequestID (network.go:451-456): returns the current
counter value and advances it by 2, wrapping as a uint32. -/
def nextRequestID (s : NetState) : Nat × NetState :=
  (s.requestIDGen, { s with requestIDGen := (s.requestIDGen + 2) % u32 })

/-- Outcome of a send-style operation as seen by the caller:
`ok` models a nil error return, `err` a non-nil error. -/
inductive SendResult where
  | ok
  | err
deriving DecidableEq, Repr

/-- network.sendAppRequest (network.go:174-222), assuming the write lock is
held and one semaphore permit has already been acquired by the caller.
`ctxErr` is the result of `ctx.Err()` (true when the context is cancelled),
`sendOk` the outcome of the external `appSender.SendAppRequest`. -/
def sendAppRequest (s : NetState) (ctxErr : Bool) (sendOk : Bool)
    (handler : HandlerId) : SendResult × NetState :=
  if s.closed then
    (SendResult.ok, { s with permits := s.permits - 1 })
  else if ctxErr then
    (SendResult.err, { s with permits := s.permits - 1 })
  else
    let (requestID, s1) := nextRequestID s
    -- Go map assignment: an existing binding for the same key is replaced.
    let s2 := { s1 with
      outstanding :=
        (requestID, handler) :: s1.outstanding.filter (fun p => p.1 ≠ requestID) }
    if sendOk then
      (SendResult.ok, { s2 with sends := s2.sends + 1 })
    else
      (SendResult.err,
        { s2 with
          permits := s2.permits - 1
          outstanding := s2.outstanding.filter (fun p => p.1 ≠ requestID) })

/-- network.SendAppRequest (network.go:147-166): rejects an empty nodeID,
observes context cancellation at entry and at semaphore acquire, acquires
one permit, then calls the internal `sendAppRequest` under the lock.
`emptyNode` is `nodeID == ids.EmptyNodeID`; `acquireOk` the semaphore
acquisition outcome. -/
def sendAppRequestPub (s : NetState) (emptyNode ctxErrEntry acquireOk ctxErrInner sendOk : Bool)
    (handler : HandlerId) : SendResult × NetState :=
  if emptyNode then (SendResult.err, s)
  else if ctxErrEntry then (SendResult.err, s)
  else if !acquireOk then (SendResult.err, s)
  else sendAppRequest { s with permits := s.permits + 1 } ctxErrInner sendOk handler

/-- network.SendAppRequestAny (network.go:125-144): observes context
cancellation at entry, acquires one permit, then under the lock selects an
arbitrary matching peer (`peerFound` is the outcome of
`peers.GetAnyPeer`); if none is found the permit is released and an error
returned, otherwise the internal `sendAppRequest` runs. -/
def sendAppRequestAny (s : NetState)
    (ctxErrEntry acquireOk peerFound ctxErrInner sendOk : Bool)
    (handler : HandlerId) : SendResult × NetState :=
  if ctxErrEntry then (SendResult.err, s)
  else if !acquireOk then (SendResult.err, s)
  else
    let s1 := { s with permits := s.permits + 1 }
    if peerFound then sendAppRequest s1 ctxErrInner sendOk handler
    else (SendResult.err, { s1 with permits := s1.permits - 1 })

/-- network.markRequestFulfilled (network.go:330-342): removes and returns
the handler registered under `requestID`, if any. -/
def markRequestFulfilled (s : NetState) (requestID : Nat) :
    Option HandlerId × NetState :=
  match s.outstanding.find? (fun p => p.1 = requestID) with
  | none => (none, s)
  | some p =>
      (some p.2,
        { s with outstanding := s.outstanding.filter (fun q => q.1 ≠ requestID) })

/-- network.AppResponse (network.go:269-282): on a hit, releases one permit
and delivers `OnResponse`; on a miss, forwards to the fallback router
(modelled as a no-op on this state). -/
def appResponse (s : NetState) (requestID : Nat) : NetState :=
  match markRequestFulfilled s requestID with
  | (none, s') => s'
  | (some h, s') =>
      { s' with
        permits := s'.permits - 1
        onResponseCount := fun x =>
          if x = h then s'.onResponseCount x + 1 else s'.onResponseCount x }

/-- network.AppRequestFailed (network.go:290-303): same routing as
AppResponse but delivers `OnFailure`. -/
def appRequestFailed (s : NetState) (requestID : Nat) : NetState :=
  match markRequestFulfilled s requestID with
  | (none, s') => s'
  | (some h, s') =>
      { s' with
        permits := s'.permits - 1
        onFailureCount := fun x =>
          if x = h then s'.onFailureCount x + 1 else s'.onFailureCount x }

/-- network.Shutdown (network.go:396-408): delivers `OnFailure` to every
outstanding handler, empties the outstanding map, resets the peer tracker
and sets `closed`. Note: it does not touch the semaphore. -/
def shutdown (s : NetState) : NetState :=
  { s with
    outstanding := []
    closed := true
    onFailureCount := fun h =>
      s.onFailureCount h + (s.outstanding.filter (fun p => p.2 = h)).length }

/-- The initial state of `NewNetwork` (network.go:105-118): counter zero,
no outstanding handlers, no permits acquired, open. -/
def initNetState : NetState :=
  { requestIDGen := 0
    outstanding := []
    permits := 0
    closed := false
    onFailureCount := fun _ => 0
    onResponseCount := fun _ => 0
    sends := 0 }

/-- One externally-triggered operation on the network, carrying the oracle
outcomes of its external collaborators. -/
inductive NetAction where
  | send (emptyNode ctxErrEntry acquireOk ctxErrInner sendOk : Bool) (handler : HandlerId)
  | response (requestID : Nat)
  | requestFailed (requestID : Nat)
  | shut
deriving Repr, DecidableEq

def netStep (s : NetState) (a : NetAction) : NetState :=
  match a with
  | NetAction.send e c1 aq c2 so h => (sendAppRequestPub s e c1 aq c2 so h).2
  | NetAction.response rid => appResponse s rid
  | NetAction.requestFailed rid => appRequestFailed s rid
  | NetAction.shut => shutdown s

def netRun (acts : List NetAction) : NetState :=
  acts.foldl netStep initNetState

end Coreth

namespace Coreth

/-! ### Basic network lemmas -/

theorem nextRequestID_fst (s : NetState) : (nextRequestID s).1 = s.requestIDGen := rfl

theorem nextRequestID_gen (s : NetState) :
    (nextRequestID s).2.requestIDGen = (s.requestIDGen + 2) % u32 := rfl

/-- The network state after `n` calls to `nextRequestID` on a fresh
network (only the generator field is affected). -/
def afterCalls : Nat → NetState
  | 0 => initNetState
  | n + 1 => (nextRequestID (afterCalls n)).2

/-- The request id returned by the `n`-th call (0-indexed) to
`nextRequestID` on a fresh network. -/
def idAt (n : Nat) : Nat := (nextRequestID (afterCalls n)).1

theorem afterCalls_gen (n : Nat) :
    (afterCalls n).requestIDGen = (2 * n) % u32 := by
  induction n with
  | zero => rfl
  | succ k ih =>
      show ((afterCalls k).requestIDGen + 2) % u32 = (2 * (k + 1)) % u32
      rw [ih]
      simp only [u32]
      omega

theorem idAt_closed (n : Nat) : idAt n = (2 * n) % u32 := afterCalls_gen n

end Coreth

namespace Coreth

/-! ### C7: request-id sequence -/

/-- **C7** (corrected).
The id sequence is *not* strictly monotonically increasing for every
number of calls: the generator is a wrapping 32-bit counter, so the id
returned by call number `2^31` wraps back to `0`, equal to the very
first id. -/
theorem C7_counterexample :
    idAt 0 = 0 ∧ idAt (2 ^ 31) = 0 ∧ ¬ idAt 0 < idAt (2 ^ 31) := by
  have h0 : idAt 0 = 0 := by rw [idAt_closed]; rfl
  have h1 : idAt (2 ^ 31) = 0 := by
    rw [idAt_closed]
    simp [u32]
  exact ⟨h0, h1, by rw [h0, h1]; exact lt_irrefl 0⟩

/-- **C7** (amended): successive `nextRequestID` calls yield
`idAt n = (2*n) mod 2^32`: every id is even, the sequence starts at 0,
and — as long as fewer than `2^31` calls have been made — it is strictly
monotonically increasing and advances by exactly 2 per call.  (After
`2^31` calls the uint32 counter wraps and monotonicity fails.) -/
theorem C7_nextRequestID_even_monotone :
    idAt 0 = 0 ∧
    (∀ n, idAt n % 2 = 0) ∧
    (∀ n, n < 2 ^ 31 → idAt n = 2 * n) ∧
    (∀ m n, m < n → n < 2 ^ 31 → idAt m < idAt n) ∧
    (∀ n, n + 1 < 2 ^ 31 → idAt (n + 1) = idAt n + 2) := by
  have hlt : ∀ n, n < 2 ^ 31 → idAt n = 2 * n := by
    intro n hn
    rw [idAt_closed]
    apply Nat.mod_eq_of_lt
    simp only [u32]
    omega
  refine ⟨by rw [idAt_closed]; rfl, ?_, hlt, ?_, ?_⟩
  · intro n
    rw [idAt_closed]
    simp only [u32]
    omega
  · intro m n hmn hn
    rw [hlt m (lt_trans hmn hn), hlt n hn]
    omega
  · intro n hn
    rw [hlt (n + 1) hn, hlt n (by omega)]
    omega

/-- Witness for C7: the amended theorem applied at concrete call
numbers 3, 5 and 4. -/
theorem C7_witness : idAt 3 < idAt 5 ∧ idAt (4 + 1) = idAt 4 + 2 :=
  ⟨C7_nextRequestID_even_monotone.2.2.2.1 3 5 (by norm_num) (by norm_num),
   C7_nextRequestID_even_monotone.2.2.2.2 4 (by norm_num)⟩

end Coreth

namespace Coreth

/-! ### Network invariant: permits vs outstanding handlers -/

/-- Number of `send` actions in a trace (each corresponds to one
`SendAppRequest` call). -/
def sendCount : List NetAction → Nat
  | [] => 0
  | NetAction.send _ _ _ _ _ _ :: rest => sendCount rest + 1
  | _ :: rest => sendCount rest

/-- Inductive invariant for shutdown-free executions: acquired permits
match the outstanding map, the network is open, all registered ids are
below the generator, and ids are pairwise distinct. -/
def NetInv (s : NetState) : Prop :=
  s.permits = s.outstanding.length ∧
  s.closed = false ∧
  (∀ p ∈ s.outstanding, p.1 < s.requestIDGen) ∧
  (s.outstanding.map Prod.fst).Nodup

theorem filter_ne_eq_self_of_ne {l : List (Nat × HandlerId)} {g : Nat}
    (h : ∀ p ∈ l, p.1 ≠ g) : l.filter (fun p => p.1 ≠ g) = l := by
  apply List.filter_eq_self.mpr
  intro p hp
  simpa using h p hp

theorem filter_ne_eq_self_of_lt {l : List (Nat × HandlerId)} {g : Nat}
    (h : ∀ p ∈ l, p.1 < g) : l.filter (fun p => p.1 ≠ g) = l :=
  filter_ne_eq_self_of_ne (fun p hp => Nat.ne_of_lt (h p hp))

theorem length_filter_ne_of_mem {l : List (Nat × HandlerId)} {rid : Nat}
    (hnd : (l.map Prod.fst).Nodup) (hmem : rid ∈ l.map Prod.fst) :
    (l.filter (fun q => q.1 ≠ rid)).length + 1 = l.length := by
  induction l with
  | nil => simp at hmem
  | cons q t ih =>
      simp only [List.map_cons, List.nodup_cons] at hnd
      by_cases hq : q.1 = rid
      · have hkeep : t.filter (fun p => p.1 ≠ rid) = t := by
          apply filter_ne_eq_self_of_ne
          intro p hp hpr
          apply hnd.1
          rw [hq, ← hpr]
          exact List.mem_map_of_mem Prod.fst hp
        have hcond : ¬ ((decide (q.1 ≠ rid)) = true) := by simp [hq]
        rw [List.filter_cons, if_neg hcond, hkeep]
        simp
      · have ht : rid ∈ t.map Prod.fst := by
          rcases List.mem_cons.mp hmem with h | h
          · exact absurd h.symm hq
          · exact h
        have hrec := ih hnd.2 ht
        have hcond : (decide (q.1 ≠ rid)) = true := by simp [hq]
        rw [List.filter_cons, if_pos hcond]
        simp only [List.length_cons]
        omega

/-! Equation lemmas for `sendAppRequest`, one per control path. -/

theorem sendAppRequest_closed_eq (s : NetState) (hc : s.closed = true)
    (c2 so : Bool) (hid : HandlerId) :
    sendAppRequest s c2 so hid = (SendResult.ok, { s with permits := s.permits - 1 }) := by
  simp [sendAppRequest, hc]

theorem sendAppRequest_ctxErr_eq (s : NetState) (hc : s.closed = false)
    (so : Bool) (hid : HandlerId) :
    sendAppRequest s true so hid = (SendResult.err, { s with permits := s.permits - 1 }) := by
  simp [sendAppRequest, hc]

theorem sendAppRequest_ok_eq (s : NetState) (hc : s.closed = false) (hid : HandlerId) :
    sendAppRequest s false true hid =
      (SendResult.ok,
        { s with
          requestIDGen := (s.requestIDGen + 2) % u32
          outstanding :=
            (s.requestIDGen, hid) :: s.outstanding.filter (fun p => p.1 ≠ s.requestIDGen)
          sends := s.sends + 1 }) := by
  simp [sendAppRequest, nextRequestID, hc]

theorem sendAppRequest_sendErr_eq (s : NetState) (hc : s.closed = false) (hid : HandlerId) :
    sendAppRequest s false false hid =
      (SendResult.err,
        { s with
          requestIDGen := (s.requestIDGen + 2) % u32
          permits := s.permits - 1
          outstanding := s.outstanding.filter (fun p => p.1 ≠ s.requestIDGen) }) := by
  have hhead : ¬ ((decide (s.requestIDGen ≠ s.requestIDGen)) = true) := by simp
  simp only [sendAppRequest, nextRequestID, hc, Bool.false_eq_true, if_false]
  rw [List.filter_cons, if_neg hhead, List.filter_filter]
  simp

end Coreth

namespace Coreth

theorem netInv_sendPub (s : NetState) (inv : NetInv s) (hg : s.requestIDGen + 2 < u32)
    (e c1 aq c2 so : Bool) (hid : HandlerId) :
    NetInv (sendAppRequestPub s e c1 aq c2 so hid).2 ∧
    (sendAppRequestPub s e c1 aq c2 so hid).2.requestIDGen ≤ s.requestIDGen + 2 := by
  obtain ⟨hp, hc, hk, hnd⟩ := inv
  have hmod : (s.requestIDGen + 2) % u32 = s.requestIDGen + 2 := Nat.mod_eq_of_lt hg
  cases e with
  | true => exact ⟨⟨hp, hc, hk, hnd⟩, Nat.le_add_right _ _⟩
  | false =>
  cases c1 with
  | true => exact ⟨⟨hp, hc, hk, hnd⟩, Nat.le_add_right _ _⟩
  | false =>
  cases aq with
  | false => exact ⟨⟨hp, hc, hk, hnd⟩, Nat.le_add_right _ _⟩
  | true =>
  show NetInv (sendAppRequest { s with permits := s.permits + 1 } c2 so hid).2 ∧
    (sendAppRequest { s with permits := s.permits + 1 } c2 so hid).2.requestIDGen
      ≤ s.requestIDGen + 2
  have hfilter : s.outstanding.filter (fun p => p.1 ≠ s.requestIDGen) = s.outstanding :=
    filter_ne_eq_self_of_lt hk
  cases c2 with
  | true =>
      rw [sendAppRequest_ctxErr_eq { s with permits := s.permits + 1 } hc so hid]
      exact ⟨⟨by simp [hp], hc, hk, hnd⟩, Nat.le_add_right _ _⟩
  | false =>
  cases so with
  | true =>
      rw [sendAppRequest_ok_eq { s with permits := s.permits + 1 } hc hid]
      refine ⟨⟨?_, hc, ?_, ?_⟩, le_of_eq hmod⟩
      · show s.permits + 1 = ((s.requestIDGen, hid) ::
            s.outstanding.filter (fun p => p.1 ≠ s.requestIDGen)).length
        rw [hfilter, List.length_cons, hp]
      · show ∀ p ∈ (s.requestIDGen, hid) ::
            s.outstanding.filter (fun p => p.1 ≠ s.requestIDGen), p.1 < (s.requestIDGen + 2) % u32
        rw [hfilter, hmod]
        intro p hmem
        rcases List.mem_cons.mp hmem with h | h
        · rw [h]; omega
        · exact Nat.lt_trans (hk p h) (by omega)
      · show (((s.requestIDGen, hid) ::
            s.outstanding.filter (fun p => p.1 ≠ s.requestIDGen)).map Prod.fst).Nodup
        rw [hfilter]
        simp only [List.map_cons, List.nodup_cons]
        refine ⟨?_, hnd⟩
        intro hmem
        rcases List.mem_map.mp hmem with ⟨p, hmem2, hfst⟩
        exact absurd (hfst ▸ hk p hmem2) (lt_irrefl _)
  | false =>
      rw [sendAppRequest_sendErr_eq { s with permits := s.permits + 1 } hc hid]
      refine ⟨⟨?_, hc, ?_, ?_⟩, le_of_eq hmod⟩
      · show s.permits + 1 - 1 =
            (s.outstanding.filter (fun p => p.1 ≠ s.requestIDGen)).length
        rw [hfilter]
        omega
      · show ∀ p ∈ s.outstanding.filter (fun p => p.1 ≠ s.requestIDGen),
            p.1 < (s.requestIDGen + 2) % u32
        rw [hfilter, hmod]
        intro p hmem
        exact Nat.lt_trans (hk p hmem) (by omega)
      · show ((s.outstanding.filter (fun p => p.1 ≠ s.requestIDGen)).map Prod.fst).Nodup
        rw [hfilter]
        exact hnd

theorem netInv_appResponse (s : NetState) (inv : NetInv s) (rid : Nat) :
    NetInv (appResponse s rid) ∧ (appResponse s rid).requestIDGen = s.requestIDGen := by
  obtain ⟨hp, hc, hk, hnd⟩ := inv
  unfold appResponse markRequestFulfilled
  cases hfind : s.outstanding.find? (fun p => p.1 = rid) with
  | none => exact ⟨⟨hp, hc, hk, hnd⟩, rfl⟩
  | some p =>
      have hmemp : p ∈ s.outstanding := List.mem_of_find?_eq_some hfind
      have hp1 : p.1 = rid := by simpa using List.find?_some hfind
      have hmem : rid ∈ s.outstanding.map Prod.fst :=
        List.mem_map.mpr ⟨p, hmemp, hp1⟩
      have hlen := length_filter_ne_of_mem hnd hmem
      dsimp only
      refine ⟨⟨?_, hc, ?_, ?_⟩, rfl⟩
      · show s.permits - 1 = (s.outstanding.filter (fun q => q.1 ≠ rid)).length
        omega
      · intro q hq
        exact hk q (List.mem_of_mem_filter hq)
      · exact List.Nodup.sublist
          (List.Sublist.map Prod.fst (List.filter_sublist s.outstanding)) hnd

theorem netInv_appRequestFailed (s : NetState) (inv : NetInv s) (rid : Nat) :
    NetInv (appRequestFailed s rid) ∧
    (appRequestFailed s rid).requestIDGen = s.requestIDGen := by
  obtain ⟨hp, hc, hk, hnd⟩ := inv
  unfold appRequestFailed markRequestFulfilled
  cases hfind : s.outstanding.find? (fun p => p.1 = rid) with
  | none => exact ⟨⟨hp, hc, hk, hnd⟩, rfl⟩
  | some p =>
      have hmemp : p ∈ s.outstanding := List.mem_of_find?_eq_some hfind
      have hp1 : p.1 = rid := by simpa using List.find?_some hfind
      have hmem : rid ∈ s.outstanding.map Prod.fst :=
        List.mem_map.mpr ⟨p, hmemp, hp1⟩
      have hlen := length_filter_ne_of_mem hnd hmem
      dsimp only
      refine ⟨⟨?_, hc, ?_, ?_⟩, rfl⟩
      · show s.permits - 1 = (s.outstanding.filter (fun q => q.1 ≠ rid)).length
        omega
      · intro q hq
        exact hk q (List.mem_of_mem_filter hq)
      · exact List.Nodup.sublist
          (List.Sublist.map Prod.fst (List.filter_sublist s.outstanding)) hnd

theorem netInv_run (acts : List NetAction) : ∀ (s : NetState),
    NetInv s → (∀ a ∈ acts, a ≠ NetAction.shut) →
    s.requestIDGen + 2 * sendCount acts < u32 →
    NetInv (acts.foldl netStep s) := by
  induction acts with
  | nil => intro s inv _ _; exact inv
  | cons a rest ih =>
      intro s inv hshut hb
      have hshutRest : ∀ x ∈ rest, x ≠ NetAction.shut :=
        fun x hx => hshut x (List.mem_cons_of_mem a hx)
      match a with
      | NetAction.send e c1 aq c2 so hid =>
          have hcnt : sendCount (NetAction.send e c1 aq c2 so hid :: rest)
              = sendCount rest + 1 := rfl
          have hg : s.requestIDGen + 2 < u32 := by
            rw [hcnt] at hb
            omega
          obtain ⟨inv2, hgen2⟩ := netInv_sendPub s inv hg e c1 aq c2 so hid
          refine ih _ inv2 hshutRest ?_
          rw [hcnt] at hb
          simp only [netStep]
          omega
      | NetAction.response rid =>
          obtain ⟨inv2, hgen2⟩ := netInv_appResponse s inv rid
          refine ih _ inv2 hshutRest ?_
          simp only [netStep]
          rw [hgen2]
          exact hb
      | NetAction.requestFailed rid =>
          obtain ⟨inv2, hgen2⟩ := netInv_appRequestFailed s inv rid
          refine ih _ inv2 hshutRest ?_
          simp only [netStep]
          rw [hgen2]
          exact hb
      | NetAction.shut =>
          exact absurd rfl (hshut NetAction.shut (List.mem_cons_self _ _))

theorem netInv_init : NetInv initNetState :=
  ⟨rfl, rfl, by intro p hp; simp [initNetState] at hp, by simp [initNetState]⟩

end Coreth

namespace Coreth

theorem length_filter_snd_eq_one {l : List (Nat × HandlerId)} {p : Nat × HandlerId}
    (hnd : (l.map Prod.snd).Nodup) (hp : p ∈ l) :
    (l.filter (fun q => q.2 = p.2)).length = 1 := by
  induction l with
  | nil => cases hp
  | cons q t ih =>
      simp only [List.map_cons, List.nodup_cons] at hnd
      by_cases hq : q.2 = p.2
      · have hnone : t.filter (fun r => r.2 = p.2) = [] := by
          rw [List.filter_eq_nil_iff]
          intro r hr hrp
          have hrp2 : r.2 = p.2 := by simpa using hrp
          apply hnd.1
          rw [hq, ← hrp2]
          exact List.mem_map_of_mem Prod.snd hr
        rw [List.filter_cons, if_pos (by simpa using hq), hnone]
        rfl
      · have hpt : p ∈ t := by
          rcases List.mem_cons.mp hp with h | h
          · exact absurd (by rw [h]) hq
          · exact h
        rw [List.filter_cons, if_neg (by simpa using hq)]
        exact ih hnd.2 hpt

/-! ### C3: permits vs outstanding handlers -/

/-- **C3** (counterexample).  The claimed equality `permits_held ==
|outstanding_handlers|` does not hold at every reachable state: after one
successful `SendAppRequest` followed by `Shutdown`, the handler map is
empty but the permit acquired for the outstanding request was never
released, so one permit remains held. -/
theorem C3_counterexample :
    (netRun [NetAction.send false false true false true 7, NetAction.shut]).permits = 1 ∧
    (netRun [NetAction.send false false true false true 7, NetAction.shut]).outstanding.length = 0 ∧
    (netRun [NetAction.send false false true false true 7, NetAction.shut]).permits ≠
      (netRun [NetAction.send false false true false true 7, NetAction.shut]).outstanding.length := by
  refine ⟨rfl, rfl, ?_⟩
  decide

/-- **C3** (amended): for every state reachable via `SendAppRequest`,
`SendAppRequestAny`, `AppResponse` and `AppRequestFailed` steps — i.e.
any step sequence not containing `Shutdown` — and before the 32-bit
request-id generator can wrap (fewer than `2^31` send calls), the number
of acquired semaphore permits equals the number of entries in the
outstanding-request-handler map.  (`Shutdown` breaks the equality: it
empties the map without releasing permits.) -/
theorem C3_permits_eq_outstanding (acts : List NetAction)
    (hshut : ∀ a ∈ acts, a ≠ NetAction.shut)
    (hcnt : sendCount acts < 2 ^ 31) :
    (netRun acts).permits = (netRun acts).outstanding.length := by
  have hb : initNetState.requestIDGen + 2 * sendCount acts < u32 := by
    show 0 + 2 * sendCount acts < u32
    simp only [u32]
    omega
  exact (netInv_run acts initNetState netInv_init hshut hb).1

/-- Witness for C3: the amended invariant applied to the concrete trace
"send a request, receive its response". -/
theorem C3_witness :
    (netRun [NetAction.send false false true false true 7, NetAction.response 0]).permits =
      (netRun [NetAction.send false false true false true 7, NetAction.response 0]).outstanding.length :=
  C3_permits_eq_outstanding
    [NetAction.send false false true false true 7, NetAction.response 0]
    (by decide) (by norm_num [sendCount])

/-! ### C2: Shutdown drain -/

/-- **C2** (counterexample).  After `Shutdown` with one outstanding
request, the handler receives its single `OnFailure` and the map is
emptied, but the claim that "the concurrency semaphore is returned to
full capacity" is false: `Shutdown` never releases the permit held for
the outstanding request, so one acquired permit remains. -/
theorem C2_counterexample :
    (netRun [NetAction.send false false true false true 5, NetAction.shut]).outstanding = [] ∧
    (netRun [NetAction.send false false true false true 5, NetAction.shut]).onFailureCount 5 = 1 ∧
    (netRun [NetAction.send false false true false true 5, NetAction.shut]).permits ≠ 0 := by
  refine ⟨rfl, rfl, ?_⟩
  decide

/-- **C2** (amended): `Shutdown` delivers exactly one `OnFailure` to the
handler of every outstanding request and leaves the outstanding-handler
map empty with the network closed; but the permits held for the
outstanding requests are *not* released — the acquired-permit count is
unchanged, so the semaphore is short of full capacity by exactly the
number of requests that were outstanding.  (Handlers of distinct
outstanding requests are assumed distinct, as in the drain scenario.) -/
theorem C2_shutdown_drains (s : NetState)
    (hnd : (s.outstanding.map Prod.snd).Nodup) :
    (shutdown s).outstanding = [] ∧
    (∀ p ∈ s.outstanding, (shutdown s).onFailureCount p.2 = s.onFailureCount p.2 + 1) ∧
    (shutdown s).permits = s.permits ∧
    (shutdown s).closed = true := by
  refine ⟨rfl, ?_, rfl, rfl⟩
  intro p hp
  show s.onFailureCount p.2 + (s.outstanding.filter (fun q => q.2 = p.2)).length
      = s.onFailureCount p.2 + 1
  rw [length_filter_snd_eq_one hnd hp]

end Coreth

namespace Coreth

/-- Witness for C2: the amended shutdown-drain theorem applied to the
concrete state reached by one successful send (one outstanding request,
handler 5). -/
theorem C2_witness :
    (shutdown (netRun [NetAction.send false false true false true 5])).outstanding = [] ∧
    (shutdown (netRun [NetAction.send false false true false true 5])).onFailureCount 5 = 1 := by
  have h := C2_shutdown_drains (netRun [NetAction.send false false true false true 5]) (by decide)
  refine ⟨h.1, ?_⟩
  have h2 := h.2.1 (0, 5) (by decide)
  simpa using h2

/-! ### C10: sends after shutdown silently succeed -/

/-- **C10** (confirmed).  When the network is closed, a
`SendAppRequest` (or `SendAppRequestAny` with a peer found) whose
semaphore acquisition succeeded has its internal `sendAppRequest`
release the acquired permit and return nil without registering a
handler or dispatching a send: the caller observes exactly the same
`nil` result as a successful dispatch, and the state (permits,
outstanding map, send count) is exactly as at entry. -/
theorem C10_send_after_shutdown (s : NetState) (hclosed : s.closed = true)
    (c2 so : Bool) (hid : HandlerId) :
    sendAppRequestPub s false false true c2 so hid = (SendResult.ok, s) ∧
    sendAppRequestAny s false true true c2 so hid = (SendResult.ok, s) := by
  have hinner :
      sendAppRequest { s with permits := s.permits + 1 } c2 so hid = (SendResult.ok, s) := by
    rw [sendAppRequest_closed_eq { s with permits := s.permits + 1 } hclosed c2 so hid]
    show (SendResult.ok, { s with permits := s.permits + 1 - 1 }) = (SendResult.ok, s)
    rw [Nat.add_sub_cancel]
  constructor
  · show sendAppRequest { s with permits := s.permits + 1 } c2 so hid = (SendResult.ok, s)
    exact hinner
  · show sendAppRequest { s with permits := s.permits + 1 } c2 so hid = (SendResult.ok, s)
    exact hinner

/-- Witness for C10: applied to the closed state produced by `Shutdown`
on a fresh network. -/
theorem C10_witness :
    sendAppRequestPub (shutdown initNetState) false false true false true 3
      = (SendResult.ok, shutdown initNetState) :=
  (C10_send_after_shutdown (shutdown initNetState) rfl false true 3).1

end Coreth

namespace Coreth

/-! ### Incoming AppRequest handling (network.go:229-263, 308-325)

Clock instants and durations are modelled as `Int` nanoseconds (Go's
`time.Time` / `time.Duration`); `Int.tdiv` is Go's truncated int64
division.  The three clock reads inside `AppRequest` /
`calculateTimeUntilDeadline` happen back-to-back; they are modelled as a
single instant `now`. -/

/-- `minRequestHandlingDuration = 100 * time.Millisecond` (network.go:31),
in nanoseconds. -/
def minRequestHandlingDuration : Int := 100 * 1000000

/-- calculateTimeUntilDeadline (network.go:308-325): computes the
buffered deadline `now + (deadline - now)/2` and drops the request
(`none`, after incrementing the deadline-dropped metric) when less than
`minRequestHandlingDuration` remains until it. -/
def calculateTimeUntilDeadline (now deadline : Int) : Option Int :=
  let timeTillDeadline := deadline - now
  let bufferedDeadline := now + Int.tdiv timeTillDeadline 2
  if bufferedDeadline - now < minRequestHandlingDuration then none
  else some bufferedDeadline

/-- Error outcome of `req.Handle` as relevant to `AppRequest`. -/
inductive HandlerErr where
  | ok
  | deadlineExceeded
  | other
deriving DecidableEq, Repr

/-- Return value of `AppRequest` as seen by the engine. -/
inductive AppReqOutcome where
  | ok
  | fatal
  | forwarded
deriving DecidableEq, Repr

/-- Observable effects of one `AppRequest` call. -/
structure AppRequestResult where
  outcome : AppReqOutcome
  droppedInc : Bool
  handledWith : Option Int
  responded : Bool
deriving DecidableEq, Repr

/-- network.AppRequest (network.go:229-263).  `decodeOk` is the outcome of
`codec.Unmarshal`; `respBytes`/`herr` the values returned by the request
handler; `sendRespOk` the outcome of `appSender.SendAppResponse`. -/
def appRequest (closed decodeOk : Bool) (now deadline : Int)
    (respBytes : Option Nat) (herr : HandlerErr) (sendRespOk : Bool) :
    AppRequestResult :=
  if closed then
    { outcome := AppReqOutcome.ok, droppedInc := false, handledWith := none,
      responded := false }
  else if !decodeOk then
    { outcome := AppReqOutcome.forwarded, droppedInc := false,
      handledWith := none, responded := false }
  else
    match calculateTimeUntilDeadline now deadline with
    | none =>
        { outcome := AppReqOutcome.ok, droppedInc := true, handledWith := none,
          responded := false }
    | some bufferedDeadline =>
        if herr ≠ HandlerErr.ok ∧ herr ≠ HandlerErr.deadlineExceeded then
          { outcome := AppReqOutcome.fatal, droppedInc := false,
            handledWith := some bufferedDeadline, responded := false }
        else if respBytes.isSome then
          { outcome := if sendRespOk then AppReqOutcome.ok else AppReqOutcome.fatal,
            droppedInc := false, handledWith := some bufferedDeadline,
            responded := true }
        else
          { outcome := AppReqOutcome.ok, droppedInc := false,
            handledWith := some bufferedDeadline, responded := false }

/-- **C8** (confirmed).  For an incoming `AppRequest` that decodes
successfully on an open network: the buffered deadline is
`now + (deadline - now)/2`; when less than 100 ms remains until it the
request is dropped with the deadline-dropped metric incremented and nil
returned (no handler run); otherwise the handler runs under the buffered
deadline, a `context.DeadlineExceeded` handler error is not returned to
the engine (nil when no response bytes were produced), while any other
handler error is returned as fatal. -/
theorem C8_appRequest_deadline (now deadline : Int) (respBytes : Option Nat)
    (herr : HandlerErr) (sendRespOk : Bool)
    (b : Int) (hb : b = now + Int.tdiv (deadline - now) 2) :
    (b - now < minRequestHandlingDuration →
      appRequest false true now deadline respBytes herr sendRespOk =
        { outcome := AppReqOutcome.ok, droppedInc := true, handledWith := none,
          responded := false }) ∧
    (¬ b - now < minRequestHandlingDuration →
      (appRequest false true now deadline respBytes herr sendRespOk).handledWith
        = some b) ∧
    (¬ b - now < minRequestHandlingDuration → herr = HandlerErr.other →
      (appRequest false true now deadline respBytes herr sendRespOk).outcome
        = AppReqOutcome.fatal) ∧
    (¬ b - now < minRequestHandlingDuration → herr = HandlerErr.deadlineExceeded →
      respBytes = none →
      (appRequest false true now deadline respBytes herr sendRespOk).outcome
        = AppReqOutcome.ok) := by
  subst hb
  refine ⟨?_, ?_, ?_, ?_⟩
  · intro hdrop
    have hdrop2 : Int.tdiv (deadline - now) 2 < minRequestHandlingDuration := by omega
    simp [appRequest, calculateTimeUntilDeadline, hdrop2]
  · intro hkeep
    have hkeep2 : ¬ Int.tdiv (deadline - now) 2 < minRequestHandlingDuration := by omega
    cases herr <;> cases respBytes <;> cases sendRespOk <;>
      simp [appRequest, calculateTimeUntilDeadline, hkeep2]
  · intro hkeep hother
    subst hother
    have hkeep2 : ¬ Int.tdiv (deadline - now) 2 < minRequestHandlingDuration := by omega
    simp [appRequest, calculateTimeUntilDeadline, hkeep2]
  · intro hkeep hde hnone
    subst hde
    subst hnone
    have hkeep2 : ¬ Int.tdiv (deadline - now) 2 < minRequestHandlingDuration := by omega
    simp [appRequest, calculateTimeUntilDeadline, hkeep2]

/-- Witness for C8: a request arriving with 50 ms until its deadline is
dropped (25 ms buffered < 100 ms); one with 400 ms is handled under a
200 ms buffered deadline, and a non-deadline handler error is fatal. -/
theorem C8_witness :
    appRequest false true 0 50000000 none HandlerErr.ok true =
      { outcome := AppReqOutcome.ok, droppedInc := true, handledWith := none,
        responded := false } ∧
    (appRequest false true 0 400000000 none HandlerErr.other true).outcome
      = AppReqOutcome.fatal := by
  constructor
  · exact (C8_appRequest_deadline 0 50000000 none HandlerErr.ok true
      25000000 (by decide)).1 (by decide)
  · exact (C8_appRequest_deadline 0 400000000 none HandlerErr.other true
      200000000 (by decide)).2.2.1 (by decide) rfl

end Coreth

namespace Coreth

/-! ## Block assembly (miner worker, src/unnamed/part_001)

Hashes, addresses, state contents, log entries and predicate results are
modelled as opaque `Nat` values.  The external EVM (`core.ApplyTransaction`),
predicate checker (`core.CheckPredicates`) and consensus engine are oracle
parameters; the worker functions below transcribe the source's control flow
for any oracle outcome. -/

/-- `params.BlobTxBlobGasPerBlob` (EIP-4844): 2^17. -/
def BlobTxBlobGasPerBlob : Nat := 131072

/-- `params.MaxBlobGasPerBlock` (EIP-4844): six blobs. -/
def MaxBlobGasPerBlock : Nat := 786432

/-- `params.TxGas`: minimal gas of any transaction. -/
def TxGas : Nat := 21000

/-- `targetTxsSize = 1792 * units.KiB` (worker.go). -/
def targetTxsSize : Nat := 1792 * 1024

/-- `types.BlobTxSidecar`: only the number of blobs matters here; blob
payloads are opaque. -/
structure BlobTxSidecar where
  blobs : List Nat
deriving DecidableEq, Repr

/-- Type-specific payload of a transaction: `plain` covers every non-blob
transaction type (which carry no sidecar); a `BlobTx` optionally carries a
sidecar (`tx.BlobTxSidecar()` may be nil). -/
inductive TxPayload where
  | plain
  | blob (sidecar : Option BlobTxSidecar)
deriving DecidableEq, Repr

structure Transaction where
  hash : Nat
  size : Nat
  protectedTx : Bool
  payload : TxPayload
deriving DecidableEq, Repr

/-- `tx.Type() == types.BlobTxType`. -/
def Transaction.isBlobTx (tx : Transaction) : Bool :=
  match tx.payload with
  | TxPayload.plain => false
  | TxPayload.blob _ => true

/-- `tx.BlobTxSidecar()`: nil for non-blob transactions. -/
def Transaction.blobTxSidecar (tx : Transaction) : Option BlobTxSidecar :=
  match tx.payload with
  | TxPayload.plain => none
  | TxPayload.blob sc => sc

/-- `tx.WithoutBlobTxSidecar()`. -/
def Transaction.withoutBlobTxSidecar (tx : Transaction) : Transaction :=
  match tx.payload with
  | TxPayload.plain => tx
  | TxPayload.blob _ => { tx with payload := TxPayload.blob none }

structure Receipt where
  blobGasUsed : Nat
  logs : List Nat
deriving DecidableEq, Repr

/-- `predicate.Results.SetTxResults`: map set (replacing any binding). -/
def setTxResults (m : List (Nat × Nat)) (h r : Nat) : List (Nat × Nat) :=
  (h, r) :: m.filter (fun p => p.1 ≠ h)

/-- `predicate.Results.DeleteTxResults`. -/
def deleteTxResults (m : List (Nat × Nat)) (h : Nat) : List (Nat × Nat) :=
  m.filter (fun p => p.1 ≠ h)

/-- Lookup of a transaction's predicate results. -/
def lookupTxResults (m : List (Nat × Nat)) (h : Nat) : Option Nat :=
  (m.find? (fun p => p.1 = h)).map Prod.snd

/-- The worker's `environment` struct (worker.go): the state snapshot is
modelled by the opaque state value itself (`Snapshot` captures the current
value; `RevertToSnapshot` restores it). -/
structure Environment where
  stateVal : Nat
  gasPool : Nat
  tcount : Nat
  txs : List Transaction
  receipts : List Receipt
  sidecars : List BlobTxSidecar
  blobs : Nat
  size : Nat
  isDurango : Bool
  predicateResults : List (Nat × Nat)
  headerGasUsed : Nat
  headerBlobGasUsed : Nat
deriving DecidableEq, Repr

/-- Classification of a failed transaction application, as tested by the
commit loop (`errors.Is(err, core.ErrNonceTooLow)`). -/
inductive TxErr where
  | nonceTooLow
  | other
deriving DecidableEq, Repr

/-- Result of the external `core.ApplyTransaction` on success. -/
structure ApplyOutcome where
  receipt : Receipt
  newState : Nat
  newGasPool : Nat
  newHeaderGasUsed : Nat
deriving DecidableEq, Repr

/-- Oracles for the external collaborators of transaction admission. -/
structure MinerOracles where
  checkPredicates : Transaction → Option Nat
  applyTx : Nat → Nat → Nat → Transaction → Except TxErr ApplyOutcome

/-- worker.applyTransaction (worker.go:340-367): snapshot the state and gas
pool, run the predicate check post-Durango (recording the results), call the
external `core.ApplyTransaction`, and on failure revert state, gas pool and
the transaction's predicate results. -/
def applyTransaction (O : MinerOracles) (env : Environment) (tx : Transaction) :
    Except TxErr Receipt × Environment :=
  let snap := env.stateVal
  let gp := env.gasPool
  if env.isDurango then
    match O.checkPredicates tx with
    | none => (Except.error TxErr.other, env)
    | some results =>
        let env1 := { env with
          predicateResults := setTxResults env.predicateResults tx.hash results }
        match O.applyTx env1.stateVal env1.gasPool env1.headerGasUsed tx with
        | Except.error e =>
            (Except.error e,
              { env1 with
                stateVal := snap
                gasPool := gp
                predicateResults := deleteTxResults env1.predicateResults tx.hash })
        | Except.ok out =>
            (Except.ok out.receipt,
              { env1 with
                stateVal := out.newState
                gasPool := out.newGasPool
                headerGasUsed := out.newHeaderGasUsed })
  else
    match O.applyTx env.stateVal env.gasPool env.headerGasUsed tx with
    | Except.error e =>
        (Except.error e,
          { env with
            stateVal := snap
            gasPool := gp
            predicateResults := deleteTxResults env.predicateResults tx.hash })
    | Except.ok out =>
        (Except.ok out.receipt,
          { env with
            stateVal := out.newState
            gasPool := out.newGasPool
            headerGasUsed := out.newHeaderGasUsed })

/-- Result of `commitTransaction`: the logs on success, a classified error,
or the panic thrown for a blob transaction without sidecar. -/
inductive CommitOutcome where
  | ok (logs : List Nat)
  | fail (e : TxErr)
  | panicked
deriving DecidableEq, Repr

/-- worker.commitBlobTransaction (worker.go:315-337). -/
def commitBlobTransaction (O : MinerOracles) (env : Environment)
    (tx : Transaction) : CommitOutcome × Environment :=
  match tx.blobTxSidecar with
  | none => (CommitOutcome.panicked, env)
  | some sc =>
      if (env.blobs + sc.blobs.length) * BlobTxBlobGasPerBlob > MaxBlobGasPerBlock then
        (CommitOutcome.fail TxErr.other, env)
      else
        match applyTransaction O env tx with
        | (Except.error e, env1) => (CommitOutcome.fail e, env1)
        | (Except.ok receipt, env1) =>
            (CommitOutcome.ok receipt.logs,
              { env1 with
                txs := env1.txs ++ [tx.withoutBlobTxSidecar]
                receipts := env1.receipts ++ [receipt]
                sidecars := env1.sidecars ++ [sc]
                blobs := env1.blobs + sc.blobs.length
                headerBlobGasUsed := env1.headerBlobGasUsed + receipt.blobGasUsed })

/-- worker.commitTransaction (worker.go:301-313). -/
def commitTransaction (O : MinerOracles) (env : Environment)
    (tx : Transaction) : CommitOutcome × Environment :=
  if tx.isBlobTx then commitBlobTransaction O env tx
  else
    match applyTransaction O env tx with
    | (Except.error e, env1) => (CommitOutcome.fail e, env1)
    | (Except.ok receipt, env1) =>
        (CommitOutcome.ok receipt.logs,
          { env1 with
            txs := env1.txs ++ [tx]
            receipts := env1.receipts ++ [receipt]
            size := env1.size + tx.size })

end Coreth

namespace Coreth

/-! Equation lemmas for `applyTransaction`, one per control path. -/

theorem applyTransaction_predFail_eq (O : MinerOracles) (env : Environment)
    (tx : Transaction) (hd : env.isDurango = true)
    (hcp : O.checkPredicates tx = none) :
    applyTransaction O env tx = (Except.error TxErr.other, env) := by
  simp [applyTransaction, hd, hcp]

theorem applyTransaction_durango_err_eq (O : MinerOracles) (env : Environment)
    (tx : Transaction) (results : Nat) (e : TxErr) (hd : env.isDurango = true)
    (hcp : O.checkPredicates tx = some results)
    (hat : O.applyTx env.stateVal env.gasPool env.headerGasUsed tx = Except.error e) :
    applyTransaction O env tx =
      (Except.error e,
        { env with
          predicateResults :=
            deleteTxResults (setTxResults env.predicateResults tx.hash results) tx.hash }) := by
  simp [applyTransaction, hd, hcp, hat]

theorem applyTransaction_durango_ok_eq (O : MinerOracles) (env : Environment)
    (tx : Transaction) (results : Nat) (out : ApplyOutcome) (hd : env.isDurango = true)
    (hcp : O.checkPredicates tx = some results)
    (hat : O.applyTx env.stateVal env.gasPool env.headerGasUsed tx = Except.ok out) :
    applyTransaction O env tx =
      (Except.ok out.receipt,
        { env with
          predicateResults := setTxResults env.predicateResults tx.hash results
          stateVal := out.newState
          gasPool := out.newGasPool
          headerGasUsed := out.newHeaderGasUsed }) := by
  simp [applyTransaction, hd, hcp, hat]

theorem applyTransaction_preDurango_err_eq (O : MinerOracles) (env : Environment)
    (tx : Transaction) (e : TxErr) (hd : env.isDurango = false)
    (hat : O.applyTx env.stateVal env.gasPool env.headerGasUsed tx = Except.error e) :
    applyTransaction O env tx =
      (Except.error e,
        { env with predicateResults := deleteTxResults env.predicateResults tx.hash }) := by
  simp [applyTransaction, hd, hat]

theorem applyTransaction_preDurango_ok_eq (O : MinerOracles) (env : Environment)
    (tx : Transaction) (out : ApplyOutcome) (hd : env.isDurango = false)
    (hat : O.applyTx env.stateVal env.gasPool env.headerGasUsed tx = Except.ok out) :
    applyTransaction O env tx =
      (Except.ok out.receipt,
        { env with
          stateVal := out.newState
          gasPool := out.newGasPool
          headerGasUsed := out.newHeaderGasUsed }) := by
  simp [applyTransaction, hd, hat]

/-- Deleting a key that was absent is the identity. -/
theorem deleteTxResults_of_lookup_none {m : List (Nat × Nat)} {h : Nat}
    (hpre : lookupTxResults m h = none) : deleteTxResults m h = m := by
  have hfind : m.find? (fun p => p.1 = h) = none := by
    cases hf : m.find? (fun p => p.1 = h) with
    | none => rfl
    | some p =>
        rw [lookupTxResults, hf] at hpre
        simp at hpre
  apply filter_ne_eq_self_of_ne
  intro p hp
  have := List.find?_eq_none.mp hfind p hp
  simpa using this

/-- Deleting the key just set restores the original map when the key was
absent before. -/
theorem delete_set_cancel {m : List (Nat × Nat)} {h r : Nat}
    (hpre : lookupTxResults m h = none) :
    deleteTxResults (setTxResults m h r) h = m := by
  unfold deleteTxResults setTxResults
  rw [List.filter_cons, if_neg (by simp)]
  have hid : deleteTxResults m h = m := deleteTxResults_of_lookup_none hpre
  unfold deleteTxResults at hid
  rw [List.filter_filter]
  simpa using hid

end Coreth

namespace Coreth

/-! ### C1: applyTransaction reverts on error -/

/-- Transaction used in the C1 counterexample. -/
def C1tx : Transaction :=
  { hash := 7, size := 0, protectedTx := false, payload := TxPayload.plain }

/-- Environment used in the C1 counterexample: post-Durango, with a
pre-existing predicate-result entry under hash 7. -/
def C1env : Environment :=
  { stateVal := 3, gasPool := 100000, tcount := 0, txs := [], receipts := [],
    sidecars := [], blobs := 0, size := 0, isDurango := true,
    predicateResults := [(7, 42)], headerGasUsed := 0, headerBlobGasUsed := 0 }

/-- Oracles used in the C1 counterexample: the predicate check fails. -/
def C1oracles : MinerOracles :=
  { checkPredicates := fun _ => none
    applyTx := fun _ _ _ _ => Except.error TxErr.other }

/-- **C1** (counterexample).  When the post-Durango predicate check fails,
`applyTransaction` returns the error without touching `predicateResults`;
if the environment already held an entry under `tx.hash`, that entry
survives the error return — contradicting the claim that after *any*
error return `predicate_results` contains no entry for `tx.hash`. -/
theorem C1_counterexample :
    (applyTransaction C1oracles C1env C1tx).1 = Except.error TxErr.other ∧
    lookupTxResults (applyTransaction C1oracles C1env C1tx).2.predicateResults C1tx.hash
      = some 42 := by
  constructor <;> rfl

/-- **C1** (amended): provided `predicate_results` holds no entry for
`tx.hash` at entry (which the commit loop guarantees: results are only
recorded for committed transactions), every error return of
`applyTransaction` leaves the environment byte-identical to its entry
value — in particular `state` and `gas_pool` are restored — and
`predicate_results` contains no entry for `tx.hash`. -/
theorem C1_applyTransaction_error_restores (O : MinerOracles) (env : Environment)
    (tx : Transaction)
    (hpre : lookupTxResults env.predicateResults tx.hash = none)
    (e : TxErr) (herr : (applyTransaction O env tx).1 = Except.error e) :
    (applyTransaction O env tx).2 = env ∧
    (applyTransaction O env tx).2.stateVal = env.stateVal ∧
    (applyTransaction O env tx).2.gasPool = env.gasPool ∧
    lookupTxResults (applyTransaction O env tx).2.predicateResults tx.hash = none := by
  have henv : (applyTransaction O env tx).2 = env := by
    cases hd : env.isDurango with
    | true =>
        cases hcp : O.checkPredicates tx with
        | none => rw [applyTransaction_predFail_eq O env tx hd hcp]
        | some results =>
            cases hat : O.applyTx env.stateVal env.gasPool env.headerGasUsed tx with
            | error e2 =>
                rw [applyTransaction_durango_err_eq O env tx results e2 hd hcp hat]
                show { env with
                  predicateResults :=
                    deleteTxResults (setTxResults env.predicateResults tx.hash results)
                      tx.hash } = env
                rw [delete_set_cancel hpre]
            | ok out =>
                rw [applyTransaction_durango_ok_eq O env tx results out hd hcp hat] at herr
                simp at herr
    | false =>
        cases hat : O.applyTx env.stateVal env.gasPool env.headerGasUsed tx with
        | error e2 =>
            rw [applyTransaction_preDurango_err_eq O env tx e2 hd hat]
            show { env with
              predicateResults := deleteTxResults env.predicateResults tx.hash } = env
            rw [deleteTxResults_of_lookup_none hpre]
        | ok out =>
            rw [applyTransaction_preDurango_ok_eq O env tx out hd hat] at herr
            simp at herr
  refine ⟨henv, by rw [henv], by rw [henv], by rw [henv]; exact hpre⟩

/-- Oracles for the C1 witness: the predicate check succeeds but the EVM
application fails. -/
def C1okOracles : MinerOracles :=
  { checkPredicates := fun _ => some 9
    applyTx := fun _ _ _ _ => Except.error TxErr.nonceTooLow }

/-- Environment for the C1 witness: like `C1env` but with no pre-existing
predicate entry. -/
def C1cleanEnv : Environment :=
  { C1env with predicateResults := [] }

/-- Witness for C1: the amended theorem applied to a concrete failing
application on an environment with no prior entry for the hash. -/
theorem C1_witness :
    (applyTransaction C1okOracles C1cleanEnv C1tx).2 = C1cleanEnv ∧
    lookupTxResults (applyTransaction C1okOracles C1cleanEnv C1tx).2.predicateResults
      C1tx.hash = none :=
  ⟨(C1_applyTransaction_error_restores C1okOracles C1cleanEnv C1tx rfl
      TxErr.nonceTooLow rfl).1,
   (C1_applyTransaction_error_restores C1okOracles C1cleanEnv C1tx rfl
      TxErr.nonceTooLow rfl).2.2.2⟩

end Coreth

namespace Coreth

/-! ### Priority merger and commit loop (worker.go:369-471) -/

/-- `txpool.LazyTransaction`: gas bounds and hash are available without
resolving; `resolve` models `Resolve()` (`none` when the transaction was
evicted between peek and resolve); `tip` is its effective miner tip against
the block base fee. -/
structure LazyTransaction where
  gas : Nat
  blobGas : Nat
  tip : Nat
  resolve : Option Transaction
deriving DecidableEq, Repr

/-- Modelled from the spec: `transactionsByPriceAndNonce` — the
implementation file of the two-heap priority merger is not among the
provided sources; only its wrapper (`NewTransactionsByPriceAndNonce`) is.
Per the spec (§4.1) it is a heap over the heads of time-ordered per-sender
lists, keyed by effective tip: `Peek` returns the highest-tip head without
consuming, `Shift` advances the top sender, `Pop` removes the entire top
sender, `Empty` tests whether any head remains, `Clear` discards
everything.  The heap is represented as the list of per-sender queues; the
top sender is the first queue whose head has the maximal tip. -/
structure TransactionsByPriceAndNonce where
  senders : List (List LazyTransaction)
deriving DecidableEq, Repr

namespace TransactionsByPriceAndNonce

/-- The heap contents: one `(index, head)` entry per sender with remaining
transactions. -/
def headsOf (t : TransactionsByPriceAndNonce) : List (Nat × LazyTransaction) :=
  t.senders.enum.filterMap (fun p => p.2.head?.map (fun x => (p.1, x)))

/-- Index of the top sender: the first sender whose head has the maximal
effective tip (deterministic tie-break, spec §4.1). -/
def topIdx (t : TransactionsByPriceAndNonce) : Option Nat :=
  (t.headsOf.foldl
    (fun best p =>
      match best with
      | none => some p
      | some q => if p.2.tip > q.2.tip then some p else some q)
    none).map Prod.fst

/-- `Peek`: the head of the top sender and its tip. -/
def peek (t : TransactionsByPriceAndNonce) : Option (LazyTransaction × Nat) :=
  match t.topIdx with
  | none => none
  | some i =>
      match t.senders.get? i with
      | none => none
      | some q =>
          match q.head? with
          | none => none
          | some x => some (x, x.tip)

/-- `Shift`: advance the top sender to its next transaction. -/
def shift (t : TransactionsByPriceAndNonce) : TransactionsByPriceAndNonce :=
  match t.topIdx with
  | none => t
  | some i =>
      { senders := t.senders.enum.map (fun p => if p.1 = i then p.2.tail else p.2) }

/-- `Pop`: remove the entire top sender. -/
def pop (t : TransactionsByPriceAndNonce) : TransactionsByPriceAndNonce :=
  match t.topIdx with
  | none => t
  | some i =>
      { senders := (t.senders.enum.filter (fun p => p.1 ≠ i)).map Prod.snd }

/-- `Empty`: no sender has transactions left. -/
def empty (t : TransactionsByPriceAndNonce) : Bool :=
  t.headsOf.isEmpty

/-- `Clear`: discard all transactions. -/
def clear (_ : TransactionsByPriceAndNonce) : TransactionsByPriceAndNonce :=
  { senders := [] }

end TransactionsByPriceAndNonce

/-- Which merger the loop selected for this iteration. -/
inductive Picked where
  | plain
  | blob
deriving DecidableEq, Repr

/-- The heap-selection switch of the commit loop (worker.go:398-409), as a
function of the two `Peek` results: with both heads present the plain one
is taken unless its tip is strictly smaller (`ptip.Lt(btip)`); with one
absent the other is taken; with both absent the loop will break
(`ltx == nil`). -/
def selectTx (pp bp : Option (LazyTransaction × Nat)) :
    Option (Picked × LazyTransaction) :=
  match pp, bp with
  | none, none => none
  | none, some (b, _) => some (Picked.blob, b)
  | some (p, _), none => some (Picked.plain, p)
  | some (p, pt), some (b, bt) =>
      if pt < bt then some (Picked.blob, b) else some (Picked.plain, p)

/-- Apply `Pop` to the picked merger. -/
def popPicked (pk : Picked) (p b : TransactionsByPriceAndNonce) :
    TransactionsByPriceAndNonce × TransactionsByPriceAndNonce :=
  match pk with
  | Picked.plain => (p.pop, b)
  | Picked.blob => (p, b.pop)

/-- Apply `Shift` to the picked merger. -/
def shiftPicked (pk : Picked) (p b : TransactionsByPriceAndNonce) :
    TransactionsByPriceAndNonce × TransactionsByPriceAndNonce :=
  match pk with
  | Picked.plain => (p.shift, b)
  | Picked.blob => (p, b.shift)

/-- `uint64` modulus for the blob-gas headroom computation. -/
def u64 : Nat := 2 ^ 64

/-- `uint64(params.MaxBlobGasPerBlock - env.blobs*params.BlobTxBlobGasPerBlob)`
(worker.go:419): the subtraction is evaluated in Go integer arithmetic and
converted to `uint64`, wrapping when the blob budget were exceeded. -/
def blobGasLeft (blobs : Nat) : Nat :=
  Int.toNat ((MaxBlobGasPerBlock - (blobs * BlobTxBlobGasPerBlob : Int)) % (u64 : Int))

/-- Outcome of one iteration of the commit loop: `break` out of the loop,
continue with updated state, or a Go panic from `commitBlobTransaction`. -/
inductive LoopStep where
  | done (env : Environment)
  | next (env : Environment) (plainTxs blobTxs : TransactionsByPriceAndNonce)
  | panicked (env : Environment)
deriving Repr

/-- One iteration of worker.commitTransactions (worker.go:370-471).
`eip155Active` is `w.chainConfig.IsEIP155(env.header.Number)`.  The
source's duplicated blob-budget check (worker.go:378-389) is transcribed
twice, as written. -/
def commitStep (O : MinerOracles) (eip155Active : Bool) (env : Environment)
    (plainTxs blobTxs : TransactionsByPriceAndNonce) : LoopStep :=
  if env.gasPool < TxGas then LoopStep.done env
  else
    let blobTxs :=
      if ¬ blobTxs.empty ∧ env.blobs * BlobTxBlobGasPerBlob ≥ MaxBlobGasPerBlock then
        blobTxs.clear
      else blobTxs
    let blobTxs :=
      if ¬ blobTxs.empty ∧ env.blobs * BlobTxBlobGasPerBlob ≥ MaxBlobGasPerBlock then
        blobTxs.clear
      else blobTxs
    match selectTx plainTxs.peek blobTxs.peek with
    | none => LoopStep.done env
    | some (pk, ltx) =>
        if env.gasPool < ltx.gas then
          let pb := popPicked pk plainTxs blobTxs
          LoopStep.next env pb.1 pb.2
        else if blobGasLeft env.blobs < ltx.blobGas then
          let pb := popPicked pk plainTxs blobTxs
          LoopStep.next env pb.1 pb.2
        else
          match ltx.resolve with
          | none =>
              let pb := popPicked pk plainTxs blobTxs
              LoopStep.next env pb.1 pb.2
          | some tx =>
              if env.size + tx.size > targetTxsSize then
                let pb := popPicked pk plainTxs blobTxs
                LoopStep.next env pb.1 pb.2
              else if tx.protectedTx ∧ ¬ eip155Active then
                let pb := popPicked pk plainTxs blobTxs
                LoopStep.next env pb.1 pb.2
              else
                match commitTransaction O env tx with
                | (CommitOutcome.fail TxErr.nonceTooLow, env1) =>
                    let pb := shiftPicked pk plainTxs blobTxs
                    LoopStep.next env1 pb.1 pb.2
                | (CommitOutcome.ok _, env1) =>
                    let pb := shiftPicked pk plainTxs blobTxs
                    LoopStep.next { env1 with tcount := env1.tcount + 1 } pb.1 pb.2
                | (CommitOutcome.fail TxErr.other, env1) =>
                    let pb := popPicked pk plainTxs blobTxs
                    LoopStep.next env1 pb.1 pb.2
                | (CommitOutcome.panicked, env1) =>
                    LoopStep.panicked env1

/-- Loop-boundary reachability: the states the commit loop passes through
when started from a given environment and merger pair. -/
inductive LoopReaches (O : MinerOracles) (eip155Active : Bool) :
    Environment × TransactionsByPriceAndNonce × TransactionsByPriceAndNonce →
    Environment × TransactionsByPriceAndNonce × TransactionsByPriceAndNonce → Prop where
  | refl (s : Environment × TransactionsByPriceAndNonce × TransactionsByPriceAndNonce) :
      LoopReaches O eip155Active s s
  | step (env : Environment) (p b : TransactionsByPriceAndNonce)
      (env2 : Environment) (p2 b2 : TransactionsByPriceAndNonce)
      (s : Environment × TransactionsByPriceAndNonce × TransactionsByPriceAndNonce) :
      commitStep O eip155Active env p b = LoopStep.next env2 p2 b2 →
      LoopReaches O eip155Active (env2, p2, b2) s →
      LoopReaches O eip155Active (env, p, b) s

end Coreth

namespace Coreth

/-- The environment carried by a loop-step outcome. -/
def LoopStep.envOf : LoopStep → Environment
  | LoopStep.done e => e
  | LoopStep.next e _ _ => e
  | LoopStep.panicked e => e

/-- `applyTransaction` never touches the included-transaction bookkeeping:
txs, receipts, sidecars, blob count and size are unchanged on every path. -/
theorem applyTransaction_frame (O : MinerOracles) (env : Environment)
    (tx : Transaction) :
    (applyTransaction O env tx).2.blobs = env.blobs ∧
    (applyTransaction O env tx).2.txs = env.txs ∧
    (applyTransaction O env tx).2.receipts = env.receipts ∧
    (applyTransaction O env tx).2.sidecars = env.sidecars ∧
    (applyTransaction O env tx).2.size = env.size := by
  simp only [applyTransaction]
  repeat' split
  all_goals exact ⟨rfl, rfl, rfl, rfl, rfl⟩

/-- Any per-environment property preserved by `commitTransaction` and by
the `tcount` increment is preserved by one iteration of the commit loop. -/
theorem commitStep_preserves (O : MinerOracles) (eip : Bool)
    (Phi : Environment → Prop)
    (hc : ∀ env tx, Phi env → Phi (commitTransaction O env tx).2)
    (ht : ∀ env, Phi env → Phi { env with tcount := env.tcount + 1 })
    (env : Environment) (p b : TransactionsByPriceAndNonce) (hPhi : Phi env) :
    Phi (commitStep O eip env p b).envOf := by
  simp only [commitStep]
  split
  · exact hPhi
  split
  · exact hPhi
  rename_i pk ltx hsel
  split
  · exact hPhi
  split
  · exact hPhi
  split
  · exact hPhi
  rename_i tx hres
  split
  · exact hPhi
  split
  · exact hPhi
  have h2 := hc env tx hPhi
  split <;> rename_i env1 heq <;> rw [heq] at h2
  · exact h2
  · exact ht _ h2
  · exact h2
  · exact h2

/-- Invariant propagation along loop-boundary reachability. -/
theorem loopReaches_preserves (O : MinerOracles) (eip : Bool)
    (Phi : Environment → Prop)
    (hc : ∀ env tx, Phi env → Phi (commitTransaction O env tx).2)
    (ht : ∀ env, Phi env → Phi { env with tcount := env.tcount + 1 })
    (s1 s2 : Environment × TransactionsByPriceAndNonce × TransactionsByPriceAndNonce)
    (hreach : LoopReaches O eip s1 s2) (hPhi : Phi s1.1) : Phi s2.1 := by
  induction hreach with
  | refl s => exact hPhi
  | step env p b env2 p2 b2 s heq hrest ih =>
      apply ih
      have h2 := commitStep_preserves O eip Phi hc ht env p b hPhi
      rw [heq] at h2
      exact h2

end Coreth

namespace Coreth

/-- `commitTransaction` preserves the blob-budget invariant: the only path
increasing `env.blobs` first checks
`(env.blobs + len(sc.blobs)) * BlobTxBlobGasPerBlob ≤ MaxBlobGasPerBlock`. -/
theorem commitTransaction_blobInv (O : MinerOracles) (env : Environment)
    (tx : Transaction) (h : env.blobs * BlobTxBlobGasPerBlob ≤ MaxBlobGasPerBlock) :
    (commitTransaction O env tx).2.blobs * BlobTxBlobGasPerBlob ≤ MaxBlobGasPerBlock := by
  unfold commitTransaction commitBlobTransaction
  split
  · split
    · exact h
    · rename_i sc hsc
      split
      · exact h
      · rename_i hbudget
        split <;> rename_i env1 heq
        · have hfr : env1.blobs = env.blobs := by
            have h0 := (applyTransaction_frame O env tx).1
            rw [heq] at h0
            exact h0
          show env1.blobs * BlobTxBlobGasPerBlob ≤ MaxBlobGasPerBlock
          rw [hfr]
          exact h
        · have hfr : env1.blobs = env.blobs := by
            have h0 := (applyTransaction_frame O env tx).1
            rw [heq] at h0
            exact h0
          show (env1.blobs + sc.blobs.length) * BlobTxBlobGasPerBlob ≤ MaxBlobGasPerBlock
          rw [hfr]
          omega
  · split <;> rename_i env1 heq
    · have hfr : env1.blobs = env.blobs := by
        have h0 := (applyTransaction_frame O env tx).1
        rw [heq] at h0
        exact h0
      show env1.blobs * BlobTxBlobGasPerBlob ≤ MaxBlobGasPerBlock
      rw [hfr]
      exact h
    · have hfr : env1.blobs = env.blobs := by
        have h0 := (applyTransaction_frame O env tx).1
        rw [heq] at h0
        exact h0
      show env1.blobs * BlobTxBlobGasPerBlob ≤ MaxBlobGasPerBlock
      rw [hfr]
      exact h

/-- **C4** (confirmed).  `commitBlobTransaction` fails with the
max-data-blobs-reached error — returning the environment untouched, so
nothing is appended — whenever
`(env.blobs + len(sidecar.blobs)) * BLOB_GAS_PER_BLOB > MAX_BLOB_GAS_PER_BLOCK`;
consequently, from any loop entry satisfying
`env.blobs * BLOB_GAS_PER_BLOB ≤ MAX_BLOB_GAS_PER_BLOCK` (the environment
is created with `blobs = 0`), the bound holds at every iteration boundary
of the commit loop. -/
theorem C4_blob_budget (O : MinerOracles) (eip : Bool) :
    (∀ (env : Environment) (tx : Transaction) (sc : BlobTxSidecar),
      tx.blobTxSidecar = some sc →
      (env.blobs + sc.blobs.length) * BlobTxBlobGasPerBlob > MaxBlobGasPerBlock →
      commitBlobTransaction O env tx = (CommitOutcome.fail TxErr.other, env)) ∧
    (∀ (env e2 : Environment) (p b p2 b2 : TransactionsByPriceAndNonce),
      env.blobs * BlobTxBlobGasPerBlob ≤ MaxBlobGasPerBlock →
      LoopReaches O eip (env, p, b) (e2, p2, b2) →
      e2.blobs * BlobTxBlobGasPerBlob ≤ MaxBlobGasPerBlock) := by
  constructor
  · intro env tx sc hsc hover
    unfold commitBlobTransaction
    rw [hsc]
    dsimp only
    rw [if_pos hover]
  · intro env e2 p b p2 b2 hstart hreach
    exact loopReaches_preserves O eip
      (fun e => e.blobs * BlobTxBlobGasPerBlob ≤ MaxBlobGasPerBlock)
      (fun env2 tx2 h2 => commitTransaction_blobInv O env2 tx2 h2)
      (fun _ h2 => h2)
      (env, p, b) (e2, p2, b2) hreach hstart

/-- Oracles for the C4 witness (outcomes never reached by it). -/
def C4oracles : MinerOracles :=
  { checkPredicates := fun _ => some 0
    applyTx := fun _ _ _ _ => Except.error TxErr.other }

/-- Environment for the C4 witness: six blobs already included. -/
def C4env : Environment :=
  { stateVal := 0, gasPool := 100000, tcount := 0, txs := [], receipts := [],
    sidecars := [], blobs := 6, size := 0, isDurango := false,
    predicateResults := [], headerGasUsed := 0, headerBlobGasUsed := 0 }

/-- Blob transaction for the C4 witness: one more blob. -/
def C4tx : Transaction :=
  { hash := 11, size := 4, protectedTx := false,
    payload := TxPayload.blob (some { blobs := [0] }) }

/-- Witness for C4: with six blobs in the block, a seventh exceeds
`MaxBlobGasPerBlock` and is rejected without appending; and the budget
invariant instantiates on a concrete (trivial) loop run. -/
theorem C4_witness :
    commitBlobTransaction C4oracles C4env C4tx = (CommitOutcome.fail TxErr.other, C4env) ∧
    C4env.blobs * BlobTxBlobGasPerBlob ≤ MaxBlobGasPerBlock :=
  ⟨(C4_blob_budget C4oracles true).1 C4env C4tx { blobs := [0] } rfl (by decide),
   (C4_blob_budget C4oracles true).2 C4env C4env
      { senders := [] } { senders := [] } { senders := [] } { senders := [] }
      (by decide) (LoopReaches.refl _)⟩

end Coreth

namespace Coreth

/-! ### C5: heap selection in the commit loop -/

/-- **C5** (confirmed).  The commit loop's selection switch: with both
heads present, the plain head is picked exactly when `ptip ≥ btip`
(strictly: blob is picked only when `ptip < btip`, so ties go to plain);
with exactly one merger empty the other's head is picked; and when both
`Peek`s are empty the loop terminates (`commitStep` breaks, leaving the
environment unchanged). -/
theorem C5_selection (O : MinerOracles) (eip : Bool) :
    (∀ (p : LazyTransaction) (pt : Nat) (b : LazyTransaction) (bt : Nat),
      selectTx (some (p, pt)) (some (b, bt)) =
        if bt ≤ pt then some (Picked.plain, p) else some (Picked.blob, b)) ∧
    (∀ (b : LazyTransaction) (bt : Nat),
      selectTx none (some (b, bt)) = some (Picked.blob, b)) ∧
    (∀ (p : LazyTransaction) (pt : Nat),
      selectTx (some (p, pt)) none = some (Picked.plain, p)) ∧
    selectTx none none = none ∧
    (∀ (env : Environment) (p b : TransactionsByPriceAndNonce),
      p.peek = none → b.peek = none →
      commitStep O eip env p b = LoopStep.done env) := by
  refine ⟨?_, fun _ _ => rfl, fun _ _ => rfl, rfl, ?_⟩
  · intro p pt b bt
    simp only [selectTx]
    rcases Nat.lt_or_ge pt bt with h | h
    · rw [if_pos h, if_neg (by omega)]
    · rw [if_neg (by omega), if_pos (by omega)]
  · intro env p b hp hb
    have hstep : ∀ t : TransactionsByPriceAndNonce, t.peek = none →
        (if ¬ t.empty = true ∧ env.blobs * BlobTxBlobGasPerBlob ≥ MaxBlobGasPerBlock
          then t.clear else t).peek = none := by
      intro t htp
      split
      · rfl
      · exact htp
    simp only [commitStep]
    split
    · rfl
    · rw [hp, hstep _ (hstep b hb)]
      rfl

/-- Lazy transactions for the C5 witness. -/
def C5p : LazyTransaction := { gas := 21000, blobGas := 0, tip := 5, resolve := none }

/-- Blob-side lazy transaction for the C5 witness. -/
def C5b : LazyTransaction := { gas := 21000, blobGas := 131072, tip := 5, resolve := none }

/-- Witness for C5: a tie (`ptip = btip = 5`) selects the plain head;
a loop over two empty mergers terminates immediately. -/
theorem C5_witness :
    selectTx (some (C5p, 5)) (some (C5b, 5)) = some (Picked.plain, C5p) ∧
    commitStep C4oracles true C4env { senders := [] } { senders := [] }
      = LoopStep.done C4env := by
  constructor
  · rw [(C5_selection C4oracles true).1 C5p 5 C5b 5, if_pos (by decide)]
  · exact (C5_selection C4oracles true).2.2.2.2 C4env
      { senders := [] } { senders := [] } rfl rfl

end Coreth

namespace Coreth

/-! ### C6: txs/receipts parallelism and sidecar stripping -/

theorem withoutBlobTxSidecar_strips (tx : Transaction) :
    tx.withoutBlobTxSidecar.blobTxSidecar = none := by
  cases hp : tx.payload <;>
    simp [Transaction.withoutBlobTxSidecar, Transaction.blobTxSidecar, hp]

theorem blobTxSidecar_none_of_not_blob (tx : Transaction) (h : tx.isBlobTx = false) :
    tx.blobTxSidecar = none := by
  cases hp : tx.payload
  · simp [Transaction.blobTxSidecar, hp]
  · exfalso
    simp [Transaction.isBlobTx, hp] at h

/-- The per-block transaction bookkeeping invariant of the commit loop:
`txs` and `receipts` stay parallel, and no stored transaction carries a
sidecar. -/
def TxsInv (env : Environment) : Prop :=
  env.txs.length = env.receipts.length ∧ ∀ tx ∈ env.txs, tx.blobTxSidecar = none

theorem commitTransaction_txsInv (O : MinerOracles) (env : Environment)
    (tx : Transaction) (h : TxsInv env) : TxsInv (commitTransaction O env tx).2 := by
  obtain ⟨hlen, hstrip⟩ := h
  unfold commitTransaction commitBlobTransaction
  split
  · split
    · exact ⟨hlen, hstrip⟩
    · rename_i sc hsc
      split
      · exact ⟨hlen, hstrip⟩
      · split <;> rename_i env1 heq
        · have h1 : env1.txs = env.txs := by
            have h0 := (applyTransaction_frame O env tx).2.1
            rw [heq] at h0
            exact h0
          have h2 : env1.receipts = env.receipts := by
            have h0 := (applyTransaction_frame O env tx).2.2.1
            rw [heq] at h0
            exact h0
          exact ⟨by rw [h1, h2, hlen], by rw [h1]; exact hstrip⟩
        · rename_i receipt
          have h1 : env1.txs = env.txs := by
            have h0 := (applyTransaction_frame O env tx).2.1
            rw [heq] at h0
            exact h0
          have h2 : env1.receipts = env.receipts := by
            have h0 := (applyTransaction_frame O env tx).2.2.1
            rw [heq] at h0
            exact h0
          constructor
          · show (env1.txs ++ [tx.withoutBlobTxSidecar]).length
              = (env1.receipts ++ [receipt]).length
            rw [h1, h2]
            simp [hlen]
          · show ∀ t ∈ env1.txs ++ [tx.withoutBlobTxSidecar], t.blobTxSidecar = none
            rw [h1]
            intro t ht
            rcases List.mem_append.mp ht with hmem | hmem
            · exact hstrip t hmem
            · rw [List.mem_singleton.mp hmem]
              exact withoutBlobTxSidecar_strips tx
  · rename_i hnb
    have hnb2 : tx.isBlobTx = false := by
      simpa using hnb
    split <;> rename_i env1 heq
    · have h1 : env1.txs = env.txs := by
        have h0 := (applyTransaction_frame O env tx).2.1
        rw [heq] at h0
        exact h0
      have h2 : env1.receipts = env.receipts := by
        have h0 := (applyTransaction_frame O env tx).2.2.1
        rw [heq] at h0
        exact h0
      exact ⟨by rw [h1, h2, hlen], by rw [h1]; exact hstrip⟩
    · rename_i receipt
      have h1 : env1.txs = env.txs := by
        have h0 := (applyTransaction_frame O env tx).2.1
        rw [heq] at h0
        exact h0
      have h2 : env1.receipts = env.receipts := by
        have h0 := (applyTransaction_frame O env tx).2.2.1
        rw [heq] at h0
        exact h0
      constructor
      · show (env1.txs ++ [tx]).length = (env1.receipts ++ [receipt]).length
        rw [h1, h2]
        simp [hlen]
      · show ∀ t ∈ env1.txs ++ [tx], t.blobTxSidecar = none
        rw [h1]
        intro t ht
        rcases List.mem_append.mp ht with hmem | hmem
        · exact hstrip t hmem
        · rw [List.mem_singleton.mp hmem]
          exact blobTxSidecar_none_of_not_blob tx hnb2

end Coreth

namespace Coreth

theorem commitTransaction_ok_appends (O : MinerOracles) (env : Environment)
    (tx : Transaction) (logs : List Nat) (env2 : Environment)
    (h : commitTransaction O env tx = (CommitOutcome.ok logs, env2)) :
    env2.txs.length = env.txs.length + 1 ∧
    env2.receipts.length = env.receipts.length + 1 := by
  have hfr := applyTransaction_frame O env tx
  unfold commitTransaction commitBlobTransaction at h
  split at h
  · split at h
    · simp at h
    · rename_i sc hsc
      split at h
      · simp at h
      · split at h <;> rename_i env1 heq
        · simp at h
        · rename_i receipt
          rw [Prod.mk.injEq] at h
          obtain ⟨h1, h2⟩ := h
          subst h2
          have ht : env1.txs = env.txs := by
            rw [heq] at hfr
            exact hfr.2.1
          have hr : env1.receipts = env.receipts := by
            rw [heq] at hfr
            exact hfr.2.2.1
          constructor
          · show (env1.txs ++ [tx.withoutBlobTxSidecar]).length = env.txs.length + 1
            rw [ht]
            simp
          · show (env1.receipts ++ [receipt]).length = env.receipts.length + 1
            rw [hr]
            simp
  · split at h <;> rename_i env1 heq
    · simp at h
    · rename_i receipt
      rw [Prod.mk.injEq] at h
      obtain ⟨h1, h2⟩ := h
      subst h2
      have ht : env1.txs = env.txs := by
        rw [heq] at hfr
        exact hfr.2.1
      have hr : env1.receipts = env.receipts := by
        rw [heq] at hfr
        exact hfr.2.2.1
      constructor
      · show (env1.txs ++ [tx]).length = env.txs.length + 1
        rw [ht]
        simp
      · show (env1.receipts ++ [receipt]).length = env.receipts.length + 1
        rw [hr]
        simp

theorem commitTransaction_fail_frame (O : MinerOracles) (env : Environment)
    (tx : Transaction) (e : TxErr) (env2 : Environment)
    (h : commitTransaction O env tx = (CommitOutcome.fail e, env2)) :
    env2.txs = env.txs ∧ env2.receipts = env.receipts ∧ env2.sidecars = env.sidecars := by
  have hfr := applyTransaction_frame O env tx
  unfold commitTransaction commitBlobTransaction at h
  split at h
  · split at h
    · simp at h
    · rename_i sc hsc
      split at h
      · rw [Prod.mk.injEq] at h
        obtain ⟨h1, h2⟩ := h
        subst h2
        exact ⟨rfl, rfl, rfl⟩
      · split at h <;> rename_i env1 heq
        · rw [Prod.mk.injEq] at h
          obtain ⟨h1, h2⟩ := h
          subst h2
          rw [heq] at hfr
          exact ⟨hfr.2.1, hfr.2.2.1, hfr.2.2.2.1⟩
        · simp at h
  · split at h <;> rename_i env1 heq
    · rw [Prod.mk.injEq] at h
      obtain ⟨h1, h2⟩ := h
      subst h2
      rw [heq] at hfr
      exact ⟨hfr.2.1, hfr.2.2.1, hfr.2.2.2.1⟩
    · simp at h

theorem commitTransaction_panic_frame (O : MinerOracles) (env : Environment)
    (tx : Transaction) (env2 : Environment)
    (h : commitTransaction O env tx = (CommitOutcome.panicked, env2)) : env2 = env := by
  unfold commitTransaction commitBlobTransaction at h
  split at h
  · split at h
    · rw [Prod.mk.injEq] at h
      exact h.2.symm
    · rename_i sc hsc
      split at h
      · simp at h
      · split at h <;> simp at h
  · split at h <;> simp at h

theorem commitTransaction_blob_ok_stores (O : MinerOracles) (env : Environment)
    (tx : Transaction) (sc : BlobTxSidecar) (logs : List Nat) (env2 : Environment)
    (hsc : tx.blobTxSidecar = some sc)
    (h : commitTransaction O env tx = (CommitOutcome.ok logs, env2)) :
    env2.txs = env.txs ++ [tx.withoutBlobTxSidecar] ∧
    env2.sidecars = env.sidecars ++ [sc] := by
  have hfr := applyTransaction_frame O env tx
  have hblob : tx.isBlobTx = true := by
    cases hp : tx.payload
    · rw [Transaction.blobTxSidecar, hp] at hsc
      simp at hsc
    · simp [Transaction.isBlobTx, hp]
  unfold commitTransaction commitBlobTransaction at h
  rw [if_pos hblob, hsc] at h
  dsimp only at h
  split at h
  · simp at h
  · split at h <;> rename_i env1 heq
    · simp at h
    · rename_i receipt
      rw [Prod.mk.injEq] at h
      obtain ⟨h1, h2⟩ := h
      subst h2
      rw [heq] at hfr
      constructor
      · show env1.txs ++ [tx.withoutBlobTxSidecar] = env.txs ++ [tx.withoutBlobTxSidecar]
        rw [hfr.2.1]
      · show env1.sidecars ++ [sc] = env.sidecars ++ [sc]
        rw [hfr.2.2.2.1]

/-- **C6** (confirmed).  `len(env.txs) == len(env.receipts)` holds at every
commit-loop boundary: a successful `commitTransaction` appends exactly one
entry to each list, a failed (or panicking) one appends to neither; every
blob transaction is stored in `env.txs` with its sidecar stripped, the
sidecar itself going only to `env.sidecars`. -/
theorem C6_txs_receipts_parallel (O : MinerOracles) (eip : Bool) :
    (∀ (env e2 : Environment) (p b p2 b2 : TransactionsByPriceAndNonce),
      TxsInv env → LoopReaches O eip (env, p, b) (e2, p2, b2) → TxsInv e2) ∧
    (∀ (env : Environment) (tx : Transaction) (logs : List Nat) (env2 : Environment),
      commitTransaction O env tx = (CommitOutcome.ok logs, env2) →
      env2.txs.length = env.txs.length + 1 ∧
      env2.receipts.length = env.receipts.length + 1) ∧
    (∀ (env : Environment) (tx : Transaction) (e : TxErr) (env2 : Environment),
      commitTransaction O env tx = (CommitOutcome.fail e, env2) →
      env2.txs = env.txs ∧ env2.receipts = env.receipts) ∧
    (∀ (env : Environment) (tx : Transaction) (env2 : Environment),
      commitTransaction O env tx = (CommitOutcome.panicked, env2) → env2 = env) ∧
    (∀ (env : Environment) (tx : Transaction) (sc : BlobTxSidecar) (logs : List Nat)
        (env2 : Environment),
      tx.blobTxSidecar = some sc →
      commitTransaction O env tx = (CommitOutcome.ok logs, env2) →
      env2.txs = env.txs ++ [tx.withoutBlobTxSidecar] ∧
      tx.withoutBlobTxSidecar.blobTxSidecar = none ∧
      env2.sidecars = env.sidecars ++ [sc]) := by
  refine ⟨?_, ?_, ?_, ?_, ?_⟩
  · intro env e2 p b p2 b2 hinv hreach
    exact loopReaches_preserves O eip TxsInv
      (fun env2 tx2 h2 => commitTransaction_txsInv O env2 tx2 h2)
      (fun _ h2 => h2)
      (env, p, b) (e2, p2, b2) hreach hinv
  · exact fun env tx logs env2 h => commitTransaction_ok_appends O env tx logs env2 h
  · exact fun env tx e env2 h =>
      ⟨(commitTransaction_fail_frame O env tx e env2 h).1,
       (commitTransaction_fail_frame O env tx e env2 h).2.1⟩
  · exact fun env tx env2 h => commitTransaction_panic_frame O env tx env2 h
  · intro env tx sc logs env2 hsc h
    exact ⟨(commitTransaction_blob_ok_stores O env tx sc logs env2 hsc h).1,
      withoutBlobTxSidecar_strips tx,
      (commitTransaction_blob_ok_stores O env tx sc logs env2 hsc h).2⟩

/-- Oracles for the C6 witness: the EVM application succeeds, consuming
21000 gas. -/
def C6oracles : MinerOracles :=
  { checkPredicates := fun _ => some 0
    applyTx := fun st gp gu _ =>
      Except.ok
        { receipt := { blobGasUsed := 0, logs := [] }
          newState := st, newGasPool := gp - 21000, newHeaderGasUsed := gu + 21000 } }

/-- Environment for the C6 witness. -/
def C6env : Environment :=
  { stateVal := 0, gasPool := 8000000, tcount := 0, txs := [], receipts := [],
    sidecars := [], blobs := 0, size := 0, isDurango := false,
    predicateResults := [], headerGasUsed := 0, headerBlobGasUsed := 0 }

/-- Plain transaction for the C6 witness. -/
def C6tx : Transaction :=
  { hash := 3, size := 10, protectedTx := false, payload := TxPayload.plain }

/-- Witness for C6: a concrete successful commit appends exactly one
transaction and one receipt. -/
theorem C6_witness :
    (commitTransaction C6oracles C6env C6tx).2.txs.length = C6env.txs.length + 1 ∧
    (commitTransaction C6oracles C6env C6tx).2.receipts.length
      = C6env.receipts.length + 1 :=
  (C6_txs_receipts_parallel C6oracles true).2.1 C6env C6tx []
    (commitTransaction C6oracles C6env C6tx).2 rfl

end Coreth

namespace Coreth

/-! ### C9: commitNewWork header derivation (worker.go:150-210) -/

/-- `params.CortinaGasLimit`. -/
def CortinaGasLimit : Nat := 15000000

/-- `params.ApricotPhase1GasLimit`. -/
def ApricotPhase1GasLimit : Nat := 8000000

/-- The parent block header fields read by `commitNewWork` (addresses and
hashes are opaque `Nat`s; the zero address is `0`). -/
structure ParentHeader where
  hash : Nat
  number : Nat
  time : Nat
  gasUsed : Nat
  gasLimit : Nat
  excessBlobGas : Option Nat
  blobGasUsed : Option Nat
deriving DecidableEq, Repr

/-- The header under construction (`types.Header`), restricted to the
fields `commitNewWork` assigns. -/
structure HeaderModel where
  parentHash : Nat
  number : Nat
  gasLimit : Nat
  time : Nat
  extra : List Nat
  baseFee : Option Nat
  coinbase : Nat
  blobGasUsed : Option Nat
  excessBlobGas : Option Nat
  parentBeaconRoot : Option Nat
deriving DecidableEq, Repr

/-- Fork-activation schedule of the chain config, as predicates of the
block timestamp (and number/time for Cancun), mirroring
`w.chainConfig.IsCortina` / `IsApricotPhase1` / `IsApricotPhase3` /
`IsCancun`. -/
structure ChainConfigModel where
  isCortina : Nat → Bool
  isApricotPhase1 : Nat → Bool
  isApricotPhase3 : Nat → Bool
  isCancun : Nat → Nat → Bool

/-- External collaborators of the header derivation: `core.CalcGasLimit`,
`dummy.CalcBaseFee` (which can fail), `eip4844.CalcExcessBlobGas`, and the
consensus engine's `Prepare` hook (modelled as able to fail but not to
rewrite the derived fields). -/
structure WorkerOracles where
  calcGasLimit : Nat → Nat → Nat → Nat → Nat
  calcBaseFee : Nat → Option (List Nat × Nat)
  calcExcessBlobGas : Nat → Nat → Nat
  prepareOk : Bool

/-- Fatal errors of the header-derivation phase. -/
inductive MinerErr where
  | baseFeeCalc
  | zeroCoinbase
  | prepareFailed
deriving DecidableEq, Repr

/-- The ApricotPhase3 base-fee step of header derivation
(worker.go:182-189): post-phase-3, `dummy.CalcBaseFee` fills the header's
extra data and base fee, and its failure aborts `commitNewWork`. -/
def prepareBaseFee (cfg : ChainConfigModel) (O : WorkerOracles)
    (timestamp : Nat) (header : HeaderModel) : Except MinerErr HeaderModel :=
  if cfg.isApricotPhase3 timestamp then
    match O.calcBaseFee timestamp with
    | none => Except.error MinerErr.baseFeeCalc
    | some p => Except.ok { header with extra := p.1, baseFee := some p.2 }
  else Except.ok header

theorem prepareBaseFee_fields (cfg : ChainConfigModel) (O : WorkerOracles)
    (timestamp : Nat) (header header1 : HeaderModel)
    (h : prepareBaseFee cfg O timestamp header = Except.ok header1) :
    header1.time = header.time ∧ header1.number = header.number := by
  unfold prepareBaseFee at h
  split at h
  · split at h
    · simp at h
    · rw [Except.ok.injEq] at h
      subst h
      exact ⟨rfl, rfl⟩
  · rw [Except.ok.injEq] at h
    subst h
    exact ⟨rfl, rfl⟩

/-- worker.commitNewWork, header-derivation phase (worker.go:150-210):
computes the timestamp (allowed to equal the parent's), picks the gas limit
by fork rules, derives base fee post-ApricotPhase3 and blob fields
post-Cancun, rejects a zero coinbase, and runs the engine's `Prepare`.
`beaconRoot` is the worker's `w.beaconRoot` (the zero hash). -/
def commitNewWorkHeader (cfg : ChainConfigModel) (O : WorkerOracles)
    (coinbase : Nat) (nowUnix : Nat) (parent : ParentHeader) :
    Except MinerErr HeaderModel :=
  let timestamp := if parent.time ≥ nowUnix then parent.time else nowUnix
  let gasLimit :=
    if cfg.isCortina timestamp then CortinaGasLimit
    else if cfg.isApricotPhase1 timestamp then ApricotPhase1GasLimit
    else O.calcGasLimit parent.gasUsed parent.gasLimit
      ApricotPhase1GasLimit ApricotPhase1GasLimit
  let header : HeaderModel :=
    { parentHash := parent.hash
      number := parent.number + 1
      gasLimit := gasLimit
      time := timestamp
      extra := []
      baseFee := none
      coinbase := 0
      blobGasUsed := none
      excessBlobGas := none
      parentBeaconRoot := none }
  match prepareBaseFee cfg O timestamp header with
  | Except.error e => Except.error e
  | Except.ok header1 =>
      let header2 :=
        if cfg.isCancun (header1.number) (header1.time) then
          let excessBlobGas :=
            if cfg.isCancun parent.number parent.time then
              O.calcExcessBlobGas (parent.excessBlobGas.getD 0)
                (parent.blobGasUsed.getD 0)
            else O.calcExcessBlobGas 0 0
          { header1 with
            blobGasUsed := some 0
            excessBlobGas := some excessBlobGas
            parentBeaconRoot := some 0 }
        else header1
      if coinbase = 0 then Except.error MinerErr.zeroCoinbase
      else
        let header3 := { header2 with coinbase := coinbase }
        if O.prepareOk then Except.ok header3
        else Except.error MinerErr.prepareFailed

/-- **C9** (confirmed).  Whenever the header-derivation phase of
`commitNewWork` succeeds, the built header has
`timestamp = max(now_unix, parent.time)` and `number = parent.number + 1`
(the subsequent commit loop only accumulates gas fields, so the assembled
block carries these values); and with a zero-address coinbase
`commitNewWork` always returns an error, building no block. -/
theorem C9_commitNewWork_header (cfg : ChainConfigModel) (O : WorkerOracles)
    (coinbase nowUnix : Nat) (parent : ParentHeader) :
    (∀ h, commitNewWorkHeader cfg O coinbase nowUnix parent = Except.ok h →
      h.time = max nowUnix parent.time ∧ h.number = parent.number + 1) ∧
    (coinbase = 0 →
      ∀ h, commitNewWorkHeader cfg O coinbase nowUnix parent ≠ Except.ok h) := by
  have htime : (if parent.time ≥ nowUnix then parent.time else nowUnix)
      = max nowUnix parent.time := by
    rcases Nat.le_total nowUnix parent.time with hle | hle
    · rw [if_pos hle, Nat.max_eq_right hle]
    · rcases Nat.lt_or_ge parent.time nowUnix with hlt | hge
      · rw [if_neg (by omega), Nat.max_eq_left hle]
      · rw [if_pos hge]
        omega
  constructor
  · intro h hok
    unfold commitNewWorkHeader at hok
    rw [htime] at hok
    dsimp only at hok
    split at hok
    · simp at hok
    · rename_i header1 heq
      have hfields := prepareBaseFee_fields _ _ _ _ _ heq
      split at hok
      · simp at hok
      · split at hok
        · rw [Except.ok.injEq] at hok
          subst hok
          constructor
          · show (if cfg.isCancun header1.number header1.time = true then _ else header1).time
              = max nowUnix parent.time
            split
            · exact hfields.1
            · exact hfields.1
          · show (if cfg.isCancun header1.number header1.time = true then _ else header1).number
              = parent.number + 1
            split
            · exact hfields.2
            · exact hfields.2
        · simp at hok
  · intro hzero h hok
    subst hzero
    unfold commitNewWorkHeader at hok
    dsimp only at hok
    split at hok
    · simp at hok
    · simp at hok

end Coreth

namespace Coreth

/-- Fork schedule for the C9 witness: Cortina active, no dynamic fees, no
Cancun. -/
def C9cfg : ChainConfigModel :=
  { isCortina := fun _ => true
    isApricotPhase1 := fun _ => true
    isApricotPhase3 := fun _ => false
    isCancun := fun _ _ => false }

/-- Oracles for the C9 witness. -/
def C9oracles : WorkerOracles :=
  { calcGasLimit := fun _ _ _ ceil => ceil
    calcBaseFee := fun _ => none
    calcExcessBlobGas := fun a b => a + b
    prepareOk := true }

/-- Parent header for the C9 witness: block 10 at time 100. -/
def C9parent : ParentHeader :=
  { hash := 5, number := 10, time := 100, gasUsed := 0, gasLimit := 8000000,
    excessBlobGas := none, blobGasUsed := none }

/-- The header the C9 witness scenario builds. -/
def C9header : HeaderModel :=
  { parentHash := 5, number := 11, gasLimit := 15000000, time := 100,
    extra := [], baseFee := none, coinbase := 1, blobGasUsed := none,
    excessBlobGas := none, parentBeaconRoot := none }

/-- Witness for C9: a clock reading of 90 against a parent at time 100
yields a block at number 11 with timestamp 100 = max(90, 100); the same
scenario with a zero coinbase fails. -/
theorem C9_witness :
    C9header.time = max 90 C9parent.time ∧
    C9header.number = C9parent.number + 1 ∧
    commitNewWorkHeader C9cfg C9oracles 0 90 C9parent ≠ Except.ok C9header :=
  ⟨((C9_commitNewWork_header C9cfg C9oracles 1 90 C9parent).1 C9header rfl).1,
   ((C9_commitNewWork_header C9cfg C9oracles 1 90 C9parent).1 C9header rfl).2,
   (C9_commitNewWork_header C9cfg C9oracles 0 90 C9parent).2 rfl C9header⟩

end Coreth
